import Mathlib

/-!
Verification of the terra_geocrud dynamic schema composition engine.

The definitions below are a shallow embedding of the Python source:
  * `src/terra_geocrud/models.py` — `CrudView.grouped_form_schema`,
    `CrudView.grouped_ui_schema`, `CrudView.properties`,
    `CrudView.list_available_properties`, `CrudView.clean`,
    `FeaturePropertyDisplayGroup.form_schema`;
  * `src/terra_geocrud/properties/schema.py` —
    `clean_properties_not_in_schema_or_null`;
  * `src/terra_geocrud/serializers.py` —
    `CrudViewSerializer.get_feature_list_default_properties`.

Python dicts are modelled as association lists with unique keys, in
insertion order: `d[k] = v` keeps the position of an existing key and
appends a fresh one, `d.pop(k)` removes the binding.  Machinery notes:
  * `list(set(xs) - set(ys))` has no specified iteration order in
    CPython; the embedding determinizes it as the order-preserving
    filter of the first operand.  Every statement that depends on that
    order says so in its doc comment.
  * Python raising (KeyError on a missing schema key) is modelled by
    `Option`: `none` is an uncaught exception.
-/

/-- First binding of key `k` in a Python dict modelled as an association
list (keys are unique in a real dict, so this is the binding). -/
def dictLookup {α : Type} (d : List (String × α)) (k : String) : Option α :=
  match d with
  | [] => none
  | (k₂, v) :: rest => if k₂ = k then some v else dictLookup rest k

/-- Python `d[k] = v`: replace in place if the key exists, else append. -/
def dictInsert {α : Type} (d : List (String × α)) (k : String) (v : α) :
    List (String × α) :=
  match d with
  | [] => [(k, v)]
  | (k₂, v₂) :: rest =>
      if k₂ = k then (k, v) :: rest else (k₂, v₂) :: dictInsert rest k v

/-- Python `d.pop(k, default)`: drop the binding of `k` if present. -/
def dictPop {α : Type} (d : List (String × α)) (k : String) :
    List (String × α) :=
  match d with
  | [] => []
  | (k₂, v₂) :: rest => if k₂ = k then rest else (k₂, v₂) :: dictPop rest k

/-- The keys of a dict, in insertion order. -/
def dictKeys {α : Type} (d : List (String × α)) : List String :=
  d.map Prod.fst

/-- JSON-Schema type descriptor of one property: the fields the engine
reads (`type`, `format`, `items.type`); everything else is opaque. -/
structure Desc where
  type : Option String
  format : Option String
  itemsType : Option String
deriving DecidableEq, Repr

/-- A layer's flat schema: `{properties: {key: descriptor}, required: [...]}`.
A schema without a `required` entry is modelled with `required = []`
(the source reads it with `.get('required', [])`). -/
structure FlatSchema where
  properties : List (String × Desc)
  required : List String
deriving DecidableEq, Repr

/-- One `FeaturePropertyDisplayGroup`, as delivered by
`feature_display_groups.all()`: the queryset is ordered by
`(order, label)`, so a group list below is always in ascending order. -/
structure GroupDef where
  slug : String
  label : String
  properties : List String
deriving DecidableEq, Repr

/-- The synthetic sub-object built by
`FeaturePropertyDisplayGroup.form_schema`. -/
structure SubSchema where
  type : String
  title : String
  required : List String
  properties : List (String × Desc)
deriving DecidableEq, Repr

/-- A value of the grouped schema's top-level `properties` dict: either an
original flat descriptor or a group sub-object. -/
inductive GEntry where
  | plain (d : Desc)
  | group (sub : SubSchema)
deriving DecidableEq, Repr

/-- The output of `CrudView.grouped_form_schema`. -/
structure GroupedSchema where
  properties : List (String × GEntry)
  required : List String
deriving DecidableEq, Repr

/-- Property loop of `FeaturePropertyDisplayGroup.form_schema`
(models.py:195-199): `properties[prop] = original_schema['properties'][prop]`
(KeyError — `none` — when the key is missing) and
`required.append(prop)` when the prop is in the original `required`. -/
def form_schema_loop (S : FlatSchema) :
    List String → List (String × Desc) → List String →
    Option (List (String × Desc) × List String)
  | [], props, req => some (props, req)
  | p :: ps, props, req =>
      match dictLookup S.properties p with
      | none => none
      | some d =>
          form_schema_loop S ps (dictInsert props p d)
            (if p ∈ S.required then req ++ [p] else req)

/-- `FeaturePropertyDisplayGroup.form_schema` (models.py:189-206). -/
def form_schema (S : FlatSchema) (g : GroupDef) : Option SubSchema :=
  match form_schema_loop S g.properties [] [] with
  | none => none
  | some (props, req) => some ⟨"object", g.label, req, props⟩

/-- Lexicographic comparison of char lists by Unicode code point, the
order Python's `sorted` uses on strings. -/
def charListLe : List Char → List Char → Bool
  | [], _ => true
  | _ :: _, [] => false
  | c₁ :: cs₁, c₂ :: cs₂ =>
      if c₁.toNat < c₂.toNat then true
      else if c₂.toNat < c₁.toNat then false
      else charListLe cs₁ cs₂

/-- Python's string ordering (code-point lexicographic). -/
def strLe (a b : String) : Bool := charListLe a.data b.data

/-- `CrudView.properties` (models.py:144-146):
`sorted(list(self.layer.layer_properties.keys()))`; the layer's
`layer_properties` key set is the key set of its schema's `properties`. -/
def crud_properties (S : FlatSchema) : List String :=
  List.insertionSort (fun a b => strLe a b = true) (dictKeys S.properties)

/-- Group loop of `CrudView.grouped_form_schema` (models.py:99-107):
install each group's sub-object under its slug, record its properties as
processed, and remove each of them (first occurrence; `ValueError`
ignored) from the generated `required` list. -/
def grouped_groups_loop (S : FlatSchema) :
    List GroupDef → List (String × GEntry) → List String → List String →
    Option (List (String × GEntry) × List String × List String)
  | [], props, req, processed => some (props, req, processed)
  | g :: gs, props, req, processed =>
      match form_schema S g with
      | none => none
      | some sub =>
          grouped_groups_loop S gs (dictInsert props g.slug (GEntry.group sub))
            (g.properties.foldl (fun r p => r.erase p) req)
            (processed ++ g.properties)

/-- Remained-property loop of `CrudView.grouped_form_schema`
(models.py:110-111): `generated_schema['properties'][prop] =
original_schema['properties'][prop]` (KeyError — `none` — when missing,
which cannot happen since remained keys come from the schema). -/
def add_remained (S : FlatSchema) :
    List String → List (String × GEntry) → Option (List (String × GEntry))
  | [], props => some props
  | p :: ps, props =>
      match dictLookup S.properties p with
      | none => none
      | some d => add_remained S ps (dictInsert props p (GEntry.plain d))

/-- `CrudView.grouped_form_schema` (models.py:91-113).  The source
computes `remained_properties = list(set(self.properties) -
set(processed_properties))`; CPython specifies no iteration order for
that set, and the embedding determinizes it as the order-preserving
filter of `self.properties` (the sorted key list). -/
def grouped_form_schema (S : FlatSchema) (groups : List GroupDef) :
    Option GroupedSchema :=
  match grouped_groups_loop S groups [] S.required [] with
  | none => none
  | some (props, req, processed) =>
      match add_remained S
          ((crud_properties S).filter (fun p => ¬ p ∈ processed)) props with
      | none => none
      | some fullProps => some ⟨fullProps, req⟩

/-- The plain string descriptor `{type: "string"}` of the C1/C8 scenarios. -/
def dStr : Desc := ⟨some "string", none, none⟩

/-- C1 scenario schema `{properties: {a,b,c: string}, required: [a,b]}`. -/
def S1 : FlatSchema := ⟨[("a", dStr), ("b", dStr), ("c", dStr)], ["a", "b"]⟩

/-- C1 scenario group `{slug: g1, label: G1, order: 0, properties: [a,b]}`. -/
def g1 : GroupDef := ⟨"g1", "G1", ["a", "b"]⟩

/-- C1: on the flat schema `{a,b,c : string; required [a,b]}` with the one
group `g1 = {label G1, properties [a,b]}`, `grouped_form_schema` returns
exactly the properties map `{g1: {type object, title G1, required [a,b],
properties {a,b}}, c: string}` with an empty top-level required list. -/
theorem c1_compose_schema_scenario :
    grouped_form_schema S1 [g1] =
      some ⟨[("g1", GEntry.group ⟨"object", "G1", ["a", "b"],
                 [("a", dStr), ("b", dStr)]⟩),
             ("c", GEntry.plain dStr)], []⟩ := by
  rfl

/-- The only way `clean_properties_not_in_schema_or_null` fails:
CPython raises RuntimeError when a dict changes size during iteration
over its keys view. -/
inductive SanitizeErr where
  | runtimeError
deriving DecidableEq, Repr

/-- The `for prop in feat.properties.keys()` loop of
`clean_properties_not_in_schema_or_null` (schema.py:85-87), with CPython
dict-iterator semantics: every call to the iterator — including the
final one that would raise StopIteration — first checks whether the
dict's size changed since iteration started and raises RuntimeError if
it did.  `ks` is the original key sequence still to visit, `d` the
current dict, `changed` whether a pop has occurred. -/
def clean_feature_loop (stale : List String) :
    List String → List (String × Option String) → Bool →
    Except SanitizeErr (List (String × Option String))
  | [], d, changed =>
      if changed then .error SanitizeErr.runtimeError else .ok d
  | k :: ks, d, changed =>
      if changed then .error SanitizeErr.runtimeError
      else if k ∈ stale ∨ dictLookup d k = some none then
        clean_feature_loop stale ks (dictPop d k) true
      else clean_feature_loop stale ks d false

/-- Per-feature body of `clean_properties_not_in_schema_or_null`
(schema.py:84-87): `props_not_in_schema = feat.properties.keys() -
schema_properties` (membership only, so modelled as a filter), then the
popping loop above.  Feature values are `Option String`, `none`
modelling JSON null (`feat.properties.get(prop) is None`). -/
def clean_feature (schemaProps : List String)
    (props : List (String × Option String)) :
    Except SanitizeErr (List (String × Option String)) :=
  clean_feature_loop ((dictKeys props).filter (fun k => ¬ k ∈ schemaProps))
    (dictKeys props) props false

/-- Result of a sanitizer run: the resulting feature maps and how many
features were saved (`feat.save()` runs once per fully processed
feature, unconditionally). -/
structure SanitizeResult where
  features : List (List (String × Option String))
  saved : Nat
deriving DecidableEq, Repr

/-- The `for feat in features` loop of
`clean_properties_not_in_schema_or_null` (schema.py:83-88); an exception
in one feature propagates and aborts the whole batch. -/
def clean_features_loop (schemaProps : List String) :
    List (List (String × Option String)) → Except SanitizeErr SanitizeResult
  | [] => .ok ⟨[], 0⟩
  | f :: fs =>
      match clean_feature schemaProps f with
      | .error e => .error e
      | .ok f₂ =>
          match clean_features_loop schemaProps fs with
          | .error e => .error e
          | .ok r => .ok ⟨f₂ :: r.features, r.saved + 1⟩

/-- `clean_properties_not_in_schema_or_null` (schema.py:77-88).  `none`
models an absent or empty (falsy) `layer.schema`: the `if layer.schema:`
guard then skips the whole body, stripping and saving nothing. -/
def clean_properties_not_in_schema_or_null (schema : Option FlatSchema)
    (features : List (List (String × Option String))) :
    Except SanitizeErr SanitizeResult :=
  match schema with
  | none => .ok ⟨features, 0⟩
  | some S => clean_features_loop (dictKeys S.properties) features

/-- C8 scenario schema: key set `{a, b}`. -/
def S8 : FlatSchema := ⟨[("a", dStr), ("b", dStr)], []⟩

/-- C8 scenario feature `{a: "x", b: null, z: "orphan"}`. -/
def f8 : List (String × Option String) :=
  [("a", some "x"), ("b", none), ("z", some "orphan")]

/-- C8 (code bug): on the feature `{a: "x", b: null, z: "orphan"}` with
schema keys `{a, b}` the sanitizer does not produce `{a: "x"}`: the
code pops keys from `feat.properties` while iterating
`feat.properties.keys()`, so after removing the first removable key
(`b`) the next iterator step raises RuntimeError and the feature is
never saved. -/
theorem c8_sanitize_raises_runtime_error :
    clean_properties_not_in_schema_or_null (some S8) [f8] =
      .error SanitizeErr.runtimeError := by
  rfl

/-- With the changed flag set, the next iterator step always raises. -/
theorem clean_feature_loop_changed (stale ks : List String)
    (d : List (String × Option String)) :
    clean_feature_loop stale ks d true = .error SanitizeErr.runtimeError := by
  cases ks <;> rfl

/-- A feature loop that terminates normally performed no pop: the
resulting dict is the input dict. -/
theorem clean_feature_loop_ok (stale : List String) :
    ∀ (ks : List String) (d r : List (String × Option String)),
      clean_feature_loop stale ks d false = .ok r → r = d := by
  intro ks
  induction ks with
  | nil =>
      intro d r h
      simp only [clean_feature_loop, Bool.false_eq_true, if_false] at h
      cases h
      rfl
  | cons k ks ih =>
      intro d r h
      simp only [clean_feature_loop, Bool.false_eq_true, if_false] at h
      by_cases hc : k ∈ stale ∨ dictLookup d k = some none
      · rw [if_pos hc, clean_feature_loop_changed] at h
        exact absurd h (by simp)
      · rw [if_neg hc] at h
        exact ih d r h

/-- A feature cleaned without error is returned unchanged. -/
theorem clean_feature_ok (schemaProps : List String)
    (f r : List (String × Option String))
    (h : clean_feature schemaProps f = .ok r) : r = f :=
  clean_feature_loop_ok _ _ _ _ h

/-- A batch that terminates normally returns every feature unchanged and
saves each of them exactly once. -/
theorem clean_features_loop_ok (schemaProps : List String) :
    ∀ (fs : List (List (String × Option String))) (r : SanitizeResult),
      clean_features_loop schemaProps fs = .ok r → r = ⟨fs, fs.length⟩ := by
  intro fs
  induction fs with
  | nil =>
      intro r h
      simp only [clean_features_loop] at h
      cases h
      rfl
  | cons f fs ih =>
      intro r h
      simp only [clean_features_loop] at h
      cases hcf : clean_feature schemaProps f with
      | error e => rw [hcf] at h; cases h
      | ok f₂ =>
          rw [hcf] at h
          cases hrest : clean_features_loop schemaProps fs with
          | error e => rw [hrest] at h; cases h
          | ok r₂ =>
              rw [hrest] at h
              cases h
              rw [clean_feature_ok _ _ _ hcf, ih r₂ hrest]
              simp

/-- C9 (amended): when a sanitizer run terminates normally it changed no
feature's property map and a second run returns the identical result —
but every feature is persisted (`feat.save()`) on every run, not zero:
the code never checks whether the map changed. -/
theorem c9_sanitize_second_run (schema : Option FlatSchema)
    (fs : List (List (String × Option String))) (r : SanitizeResult)
    (h : clean_properties_not_in_schema_or_null schema fs = .ok r) :
    r.features = fs ∧
    clean_properties_not_in_schema_or_null schema r.features = .ok r ∧
    r.saved = (match schema with | none => 0 | some _ => fs.length) := by
  cases schema with
  | none =>
      simp only [clean_properties_not_in_schema_or_null] at h ⊢
      cases h
      exact ⟨rfl, rfl, rfl⟩
  | some S =>
      simp only [clean_properties_not_in_schema_or_null] at h ⊢
      have hr := clean_features_loop_ok _ _ _ h
      subst hr
      exact ⟨rfl, h, rfl⟩

/-- Already-sanitized feature `{a: "x"}` of the C9 counterexample. -/
def f9 : List (String × Option String) := [("a", some "x")]

/-- C9 counterexample: a run over the already-sanitized feature set
`[{a: "x"}]` (schema keys `{a, b}`) leaves the map unchanged but
persists 1 feature, not 0 — refuting the claim that a feature is
persisted only when its property map changed. -/
theorem c9_sanitize_persists_unchanged_feature :
    clean_properties_not_in_schema_or_null (some S8) [f9] =
      .ok ⟨[f9], 1⟩ ∧ (1 : Nat) ≠ 0 :=
  ⟨rfl, by decide⟩

/-- Witness for the amended C9 theorem at the concrete sanitized batch
`[{a: "x"}]` with schema keys `{a, b}`. -/
theorem c9_sanitize_second_run_witness :
    (⟨[f9], 1⟩ : SanitizeResult).features = [f9] ∧
    clean_properties_not_in_schema_or_null (some S8)
      (⟨[f9], 1⟩ : SanitizeResult).features = .ok ⟨[f9], 1⟩ ∧
    (⟨[f9], 1⟩ : SanitizeResult).saved =
      (match some S8 with | none => 0 | some _ => [f9].length) :=
  c9_sanitize_second_run (some S8) [f9] ⟨[f9], 1⟩ rfl

/-- A key is absent from a dict exactly when its lookup is `none`. -/
theorem dictLookup_eq_none {α : Type} (d : List (String × α)) (k : String) :
    dictLookup d k = none ↔ ¬ k ∈ dictKeys d := by
  induction d with
  | nil => simp [dictLookup, dictKeys]
  | cons kv rest ih =>
      obtain ⟨k₂, v⟩ := kv
      by_cases hk : k₂ = k
      · subst hk
        simp [dictLookup, dictKeys]
      · simp [dictLookup, dictKeys, hk, ih, Ne.symm hk]

/-- Popping an absent key leaves the dict unchanged. -/
theorem dictPop_of_notMem {α : Type} (d : List (String × α)) (k : String)
    (h : ¬ k ∈ dictKeys d) : dictPop d k = d := by
  induction d with
  | nil => rfl
  | cons kv rest ih =>
      obtain ⟨k₂, v⟩ := kv
      simp only [dictKeys, List.map_cons, List.mem_cons] at h
      push_neg at h
      have hne : ¬ k₂ = k := fun he => h.1 he.symm
      simp [dictPop, hne, ih (by simpa [dictKeys] using h.2)]

/-- `dictPop` yields a sublist of the dict. -/
theorem dictPop_sublist {α : Type} (d : List (String × α)) (k : String) :
    List.Sublist (dictPop d k) d := by
  induction d with
  | nil => simp [dictPop]
  | cons kv rest ih =>
      obtain ⟨k₂, v⟩ := kv
      by_cases hk : k₂ = k
      · simp [dictPop, hk]
      · simpa [dictPop, hk] using List.Sublist.cons₂ (k₂, v) ih

/-- `dictPop` preserves uniqueness of keys. -/
theorem dictKeys_pop_nodup {α : Type} (d : List (String × α)) (k : String)
    (h : (dictKeys d).Nodup) : (dictKeys (dictPop d k)).Nodup :=
  List.Nodup.sublist (List.Sublist.map Prod.fst (dictPop_sublist d k)) h

/-- Popping one key does not change the lookup of another. -/
theorem dictLookup_pop_ne {α : Type} (d : List (String × α)) (k q : String)
    (h : q ≠ k) : dictLookup (dictPop d k) q = dictLookup d q := by
  induction d with
  | nil => rfl
  | cons kv rest ih =>
      obtain ⟨k₂, v⟩ := kv
      by_cases hk : k₂ = k
      · subst hk
        have hq : ¬ k₂ = q := fun he => h he.symm
        simp [dictPop, dictLookup, hq]
      · simp [dictPop, dictLookup, hk, ih]

/-- With unique keys, popping a key makes its lookup `none`. -/
theorem dictLookup_pop_self {α : Type} (d : List (String × α)) (k : String)
    (h : (dictKeys d).Nodup) : dictLookup (dictPop d k) k = none := by
  induction d with
  | nil => rfl
  | cons kv rest ih =>
      obtain ⟨k₂, v⟩ := kv
      simp only [dictKeys, List.map_cons, List.nodup_cons] at h
      by_cases hk : k₂ = k
      · subst hk
        simp only [dictPop, if_pos rfl]
        rw [dictLookup_eq_none]
        exact fun hm => h.1 (by simpa [dictKeys] using hm)
      · simp [dictPop, dictLookup, hk, ih h.2]

/-- Every binding of `dictInsert d k v` is an old binding or `(k, v)`. -/
theorem dictInsert_mem {α : Type} (d : List (String × α)) (k : String)
    (v : α) : ∀ kv ∈ dictInsert d k v, kv ∈ d ∨ kv = (k, v) := by
  induction d with
  | nil => simp [dictInsert]
  | cons kv₂ rest ih =>
      obtain ⟨k₂, v₂⟩ := kv₂
      intro kv hm
      by_cases hk : k₂ = k
      · simp only [dictInsert, if_pos hk, List.mem_cons] at hm
        rcases hm with hm | hm
        · exact Or.inr hm
        · exact Or.inl (List.mem_cons_of_mem _ hm)
      · simp only [dictInsert, if_neg hk, List.mem_cons] at hm
        rcases hm with hm | hm
        · exact Or.inl (by simp [hm])
        · rcases ih kv hm with h₂ | h₂
          · exact Or.inl (List.mem_cons_of_mem _ h₂)
          · exact Or.inr h₂

/-- Inserting one key does not change the lookup of another. -/
theorem dictLookup_insert_ne {α : Type} (d : List (String × α)) (k q : String)
    (v : α) (h : q ≠ k) : dictLookup (dictInsert d k v) q = dictLookup d q := by
  induction d with
  | nil =>
      have hq : ¬ k = q := fun he => h he.symm
      simp [dictInsert, dictLookup, hq]
  | cons kv rest ih =>
      obtain ⟨k₂, v₂⟩ := kv
      by_cases hk : k₂ = k
      · subst hk
        have hq : ¬ k₂ = q := fun he => h he.symm
        simp [dictInsert, dictLookup, hq]
      · simp [dictInsert, dictLookup, hk, ih]

/-- A per-property UI hint object.  Python dict truthiness makes the
empty object falsy, which is what `if original_def:` tests. -/
abbrev Hint := List (String × String)

/-- The view's flat `ui_schema` dict, split into its per-property hint
entries and the special `ui:order` entry (`[]` when absent; the source
reads it with `.get('ui:order', [])`).  Property keys, group slugs and
the literal key `ui:order` live in the one Python dict; the split
determinizes them as disjoint namespaces. -/
structure UiSchemaIn where
  hints : List (String × Hint)
  order : List String
deriving DecidableEq, Repr

/-- One group's sub-dict of the grouped ui schema: its `ui:order` list
plus the hint entries moved into it. -/
structure UiGroupOut where
  order : List String
  hints : List (String × Hint)
deriving DecidableEq, Repr

/-- The output of `CrudView.grouped_ui_schema`. -/
structure UiSchemaOut where
  hints : List (String × Hint)
  order : List String
  groups : List (String × UiGroupOut)
deriving DecidableEq, Repr

/-- The `if original_def:` part of the per-property body
(models.py:129-131): the popped hint is reinserted in the group's
sub-dict only when truthy, i.e. a non-empty object. -/
def ui_prop_sub (top : List (String × Hint)) (sub : UiGroupOut) (p : String) :
    UiGroupOut :=
  match dictLookup top p with
  | some h =>
      if h.isEmpty then sub
      else { sub with hints := dictInsert sub.hints p h }
  | none => sub

/-- Per-property body of `CrudView.grouped_ui_schema` (models.py:127-136):
pop the property's hint from the top level, reinsert it in the group's
sub-dict only when truthy (non-empty), and move the property from the
top-level `ui:order` (first occurrence) to the group's `ui:order`. -/
def ui_prop_step (acc : List (String × Hint) × List String × UiGroupOut)
    (p : String) : List (String × Hint) × List String × UiGroupOut :=
  if p ∈ acc.2.1 then
    (dictPop acc.1 p, (acc.2.1).erase p,
     { ui_prop_sub acc.1 acc.2.2 p with
         order := (ui_prop_sub acc.1 acc.2.2 p).order ++ [p] })
  else (dictPop acc.1 p, acc.2.1, ui_prop_sub acc.1 acc.2.2 p)

/-- Group loop of `CrudView.grouped_ui_schema` (models.py:123-139): each
group starts as `{'ui:order': []}`, consumes its properties, and finally
appends the wildcard `'*'` to its `ui:order`. -/
def ui_groups_loop (st : UiSchemaOut) : List GroupDef → UiSchemaOut
  | [] => st
  | g :: gs =>
      let r := g.properties.foldl ui_prop_step (st.hints, st.order, ⟨[], []⟩)
      ui_groups_loop
        ⟨r.1, r.2.1,
         dictInsert st.groups g.slug { r.2.2 with order := r.2.2.order ++ ["*"] }⟩
        gs

/-- `CrudView.grouped_ui_schema` (models.py:115-142): after the group
loop, when at least one group exists the top-level `ui:order` is
overwritten with the ascending slug list followed by `'*'`. -/
def grouped_ui_schema (ui : UiSchemaIn) (groups : List GroupDef) : UiSchemaOut :=
  let st := ui_groups_loop ⟨ui.hints, ui.order, []⟩ groups
  if groups.isEmpty then st
  else { st with order := groups.map (fun g => g.slug) ++ ["*"] }

/-- Every group sub-dict ever installed by the group loop has a
`ui:order` that ends with the wildcard `'*'`. -/
theorem ui_groups_loop_star (gs : List GroupDef) :
    ∀ st : UiSchemaOut,
      (∀ kv ∈ st.groups, ∃ l, kv.2.order = l ++ ["*"]) →
      ∀ kv ∈ (ui_groups_loop st gs).groups, ∃ l, kv.2.order = l ++ ["*"] := by
  induction gs with
  | nil => exact fun st h => h
  | cons g gs ih =>
      intro st h kv hm
      refine ih _ ?_ kv hm
      intro kv₂ hm₂
      rcases dictInsert_mem _ _ _ kv₂ hm₂ with h₂ | h₂
      · exact h kv₂ h₂
      · exact ⟨_, by rw [h₂]⟩

/-- The group loop never touches the `groups` component of the final
answer other than through `dictInsert`, and `grouped_ui_schema` keeps it. -/
theorem grouped_ui_schema_groups (ui : UiSchemaIn) (groups : List GroupDef) :
    (grouped_ui_schema ui groups).groups =
      (ui_groups_loop ⟨ui.hints, ui.order, []⟩ groups).groups := by
  unfold grouped_ui_schema
  split <;> rfl

/-- C5: in `grouped_ui_schema` every group's `ui:order` ends with the
wildcard `'*'`, and when at least one group exists the top-level
`ui:order` is the ascending slug list followed by `'*'`. -/
theorem c5_ui_order_wildcards (ui : UiSchemaIn) (groups : List GroupDef) :
    (∀ kv ∈ (grouped_ui_schema ui groups).groups, ∃ l, kv.2.order = l ++ ["*"]) ∧
    (groups ≠ [] →
      (grouped_ui_schema ui groups).order =
        groups.map (fun g => g.slug) ++ ["*"]) := by
  constructor
  · rw [grouped_ui_schema_groups]
    exact ui_groups_loop_star groups ⟨ui.hints, ui.order, []⟩ (by simp)
  · intro hne
    unfold grouped_ui_schema
    rw [if_neg (by simpa using hne)]

/-- Witness for C5 at the flat hints `{x: {ui:widget: textarea}}` with
`ui:order = [x]` and the single group `g1` claiming `[a, b]`. -/
theorem c5_ui_order_wildcards_witness :
    (∀ kv ∈ (grouped_ui_schema ⟨[("x", [("ui:widget", "textarea")])], ["x"]⟩
        [g1]).groups, ∃ l, kv.2.order = l ++ ["*"]) ∧
    ([g1] ≠ ([] : List GroupDef) →
      (grouped_ui_schema ⟨[("x", [("ui:widget", "textarea")])], ["x"]⟩
        [g1]).order = [g1].map (fun g => g.slug) ++ ["*"]) :=
  c5_ui_order_wildcards ⟨[("x", [("ui:widget", "textarea")])], ["x"]⟩ [g1]

/-- Inserting a fresh key appends the binding at the end. -/
theorem dictInsert_append {α : Type} (d : List (String × α)) (k : String)
    (v : α) (h : ¬ k ∈ dictKeys d) : dictInsert d k v = d ++ [(k, v)] := by
  induction d with
  | nil => rfl
  | cons kv rest ih =>
      obtain ⟨k₂, v₂⟩ := kv
      simp only [dictKeys, List.map_cons, List.mem_cons] at h
      push_neg at h
      have hne : ¬ k₂ = k := fun he => h.1 he.symm
      simp [dictInsert, hne, ih (by simpa [dictKeys] using h.2)]

/-- The keys after an insertion are the old keys plus the inserted one. -/
theorem dictKeys_insert_mem {α : Type} (d : List (String × α)) (k q : String)
    (v : α) : q ∈ dictKeys (dictInsert d k v) ↔ q = k ∨ q ∈ dictKeys d := by
  induction d with
  | nil => simp [dictInsert, dictKeys]
  | cons kv rest ih =>
      obtain ⟨k₂, v₂⟩ := kv
      by_cases hk : k₂ = k
      · subst hk
        rw [show dictInsert ((k₂, v₂) :: rest) k₂ v = (k₂, v) :: rest from by
          simp [dictInsert]]
        simp only [dictKeys, List.map_cons, List.mem_cons]
        tauto
      · simp only [dictInsert, if_neg hk, dictKeys, List.map_cons,
          List.mem_cons]
        rw [show (List.map Prod.fst (dictInsert rest k v) : List String) =
          dictKeys (dictInsert rest k v) from rfl, ih]
        tauto

/-- A lookup that succeeds on the front dict succeeds on the
concatenation. -/
theorem dictLookup_append_left {α : Type} (d e : List (String × α))
    (k : String) (v : α) (h : dictLookup d k = some v) :
    dictLookup (d ++ e) k = some v := by
  induction d with
  | nil => cases h
  | cons kv rest ih =>
      obtain ⟨k₂, v₂⟩ := kv
      by_cases hk : k₂ = k
      · simp only [dictLookup, if_pos hk] at h
        simp [dictLookup, hk, h]
      · simp only [dictLookup, if_neg hk] at h
        simp [dictLookup, hk, ih h]

/-- In a slug-keyed map built from groups with pairwise distinct slugs,
each group's slug looks up that group's image. -/
theorem dictLookup_map_slug {β : Type} (f : GroupDef → β) :
    ∀ (gs : List GroupDef), (gs.map (fun g => g.slug)).Nodup →
      ∀ g ∈ gs, dictLookup (gs.map (fun g => (g.slug, f g))) g.slug =
        some (f g) := by
  intro gs
  induction gs with
  | nil => intro _ g hg; exact absurd hg (List.not_mem_nil g)
  | cons g₂ gs ih =>
      intro hnd g hg
      simp only [List.map_cons, List.nodup_cons] at hnd
      rcases List.mem_cons.mp hg with hg | hg
      · subst hg
        simp [dictLookup]
      · have hne : ¬ g₂.slug = g.slug := by
          intro he
          exact hnd.1 (he ▸ List.mem_map_of_mem (fun g => g.slug) hg)
        simp only [List.map_cons, dictLookup, if_neg hne]
        exact ih hnd.2 g hg

/-- The original descriptor of a schema key (total closed form of the
source's `original_schema['properties'][prop]`, meaningful on keys of
the schema). -/
def desc_of (S : FlatSchema) (p : String) : Desc :=
  (dictLookup S.properties p).getD ⟨none, none, none⟩

/-- Closed form of the sub-object property dict a group builds. -/
def sub_props_of (S : FlatSchema) (l : List String) : List (String × Desc) :=
  l.foldl (fun ps q => dictInsert ps q (desc_of S q)) []

/-- Closed form of `FeaturePropertyDisplayGroup.form_schema`. -/
def sub_schema_of (S : FlatSchema) (g : GroupDef) : SubSchema :=
  ⟨"object", g.label, g.properties.filter (fun p => p ∈ S.required),
   sub_props_of S g.properties⟩

/-- The property loop of `form_schema` succeeds on schema keys and
computes the insert-fold of the descriptors together with the original
`required` members of the group, in group order. -/
theorem form_schema_loop_eq (S : FlatSchema) :
    ∀ (l : List String) (props : List (String × Desc)) (req : List String),
      (∀ p ∈ l, p ∈ dictKeys S.properties) →
      form_schema_loop S l props req =
        some (l.foldl (fun ps q => dictInsert ps q (desc_of S q)) props,
              req ++ l.filter (fun p => p ∈ S.required)) := by
  intro l
  induction l with
  | nil => intro props req _; simp [form_schema_loop]
  | cons p l ih =>
      intro props req h
      have hp : p ∈ dictKeys S.properties := h p (List.mem_cons_self p l)
      have hne : ¬ dictLookup S.properties p = none :=
        fun hn => ((dictLookup_eq_none _ _).mp hn) hp
      cases hl : dictLookup S.properties p with
      | none => exact absurd hl hne
      | some d =>
          have hdesc : desc_of S p = d := by simp [desc_of, hl]
          simp only [form_schema_loop, hl]
          rw [ih _ _ (fun q hq => h q (List.mem_cons_of_mem p hq))]
          simp only [List.foldl_cons, hdesc, List.filter_cons]
          by_cases hr : p ∈ S.required
          · simp [hr, List.append_assoc]
          · simp [hr]

/-- `form_schema` succeeds on a group whose keys all exist in the schema
and returns the closed form. -/
theorem form_schema_eq (S : FlatSchema) (g : GroupDef)
    (h : ∀ p ∈ g.properties, p ∈ dictKeys S.properties) :
    form_schema S g = some (sub_schema_of S g) := by
  unfold form_schema
  rw [form_schema_loop_eq S g.properties [] [] h]
  rfl

/-- Keys fed to the insert-fold end up among its keys. -/
theorem foldl_dictInsert_keys (S : FlatSchema) :
    ∀ (l : List String) (init : List (String × Desc)) (p : String),
      p ∈ l ∨ p ∈ dictKeys init →
      p ∈ dictKeys (l.foldl (fun ps q => dictInsert ps q (desc_of S q)) init) := by
  intro l
  induction l with
  | nil =>
      intro init p h
      rcases h with h | h
      · exact absurd h (List.not_mem_nil p)
      · exact h
  | cons q l ih =>
      intro init p h
      simp only [List.foldl_cons]
      refine ih _ p ?_
      rcases h with h | h
      · rcases List.mem_cons.mp h with h | h
        · exact Or.inr ((dictKeys_insert_mem _ _ _ _).mpr (Or.inl h))
        · exact Or.inl h
      · exact Or.inr ((dictKeys_insert_mem _ _ _ _).mpr (Or.inr h))

/-- Every property of a group is a key of its sub-object's dict. -/
theorem sub_props_of_mem (S : FlatSchema) (l : List String) (p : String)
    (hp : p ∈ l) : p ∈ dictKeys (sub_props_of S l) :=
  foldl_dictInsert_keys S l [] p (Or.inl hp)

/-- A schema key's lookup returns exactly its closed-form descriptor. -/
theorem dictLookup_desc_of (S : FlatSchema) (p : String)
    (hp : p ∈ dictKeys S.properties) :
    dictLookup S.properties p = some (desc_of S p) := by
  cases hl : dictLookup S.properties p with
  | none => exact absurd hp ((dictLookup_eq_none _ _).mp hl)
  | some d => simp [desc_of, hl]

/-- Membership in the sorted key list is membership in the schema keys. -/
theorem crud_properties_mem (S : FlatSchema) (p : String) :
    p ∈ crud_properties S ↔ p ∈ dictKeys S.properties :=
  (List.perm_insertionSort _ _).mem_iff

/-- The sorted key list has no duplicates when the schema keys have none. -/
theorem crud_properties_nodup (S : FlatSchema)
    (h : (dictKeys S.properties).Nodup) : (crud_properties S).Nodup :=
  (List.perm_insertionSort _ _).nodup_iff.mpr h

/-- The group loop of `grouped_form_schema` succeeds when every group
key exists; it appends one sub-object entry per group (slugs fresh for
the accumulated dict and pairwise distinct), erases each group property
once from `required`, and concatenates the group property lists into
`processed`. -/
theorem grouped_groups_loop_eq (S : FlatSchema) :
    ∀ (gs : List GroupDef) (props : List (String × GEntry))
      (req processed : List String),
      (∀ g ∈ gs, ∀ p ∈ g.properties, p ∈ dictKeys S.properties) →
      (∀ g ∈ gs, ¬ g.slug ∈ dictKeys props) →
      (gs.map (fun g => g.slug)).Nodup →
      grouped_groups_loop S gs props req processed =
        some (props ++
                gs.map (fun g => (g.slug, GEntry.group (sub_schema_of S g))),
              (gs.flatMap (fun g => g.properties)).foldl
                (fun r p => r.erase p) req,
              processed ++ gs.flatMap (fun g => g.properties)) := by
  intro gs
  induction gs with
  | nil => intro props req processed _ _ _; simp [grouped_groups_loop]
  | cons g gs ih =>
      intro props req processed hkeys hfresh hnd
      simp only [List.map_cons, List.nodup_cons] at hnd
      simp only [grouped_groups_loop,
        form_schema_eq S g (hkeys g (List.mem_cons_self g gs))]
      rw [dictInsert_append _ _ _ (hfresh g (List.mem_cons_self g gs))]
      rw [ih (props ++ [(g.slug, GEntry.group (sub_schema_of S g))]) _ _
        (fun g₂ hg₂ p hp => hkeys g₂ (List.mem_cons_of_mem g hg₂) p hp)
        ?_ hnd.2]
      · simp [List.flatMap_cons, List.foldl_append, List.append_assoc]
      · intro g₂ hg₂
        simp only [dictKeys, List.map_append, List.mem_append, List.map_cons,
          List.map_nil, List.mem_singleton]
        push_neg
        constructor
        · exact fun hm => hfresh g₂ (List.mem_cons_of_mem g hg₂)
            (by simpa [dictKeys] using hm)
        · intro he
          exact hnd.1 (he ▸ List.mem_map_of_mem (fun g => g.slug) hg₂)

/-- The remained-property loop of `grouped_form_schema` succeeds on
schema keys and appends one unchanged plain descriptor per key. -/
theorem add_remained_eq (S : FlatSchema) :
    ∀ (l : List String) (props : List (String × GEntry)),
      (∀ p ∈ l, p ∈ dictKeys S.properties) →
      (∀ p ∈ l, ¬ p ∈ dictKeys props) →
      l.Nodup →
      add_remained S l props =
        some (props ++ l.map (fun p => (p, GEntry.plain (desc_of S p)))) := by
  intro l
  induction l with
  | nil => intro props _ _ _; simp [add_remained]
  | cons p l ih =>
      intro props hkeys hfresh hnd
      have hp := hkeys p (List.mem_cons_self p l)
      simp only [List.nodup_cons] at hnd
      simp only [add_remained, dictLookup_desc_of S p hp]
      rw [dictInsert_append _ _ _ (hfresh p (List.mem_cons_self p l))]
      rw [ih _ (fun q hq => hkeys q (List.mem_cons_of_mem p hq)) ?_ hnd.2]
      · simp [List.append_assoc]
      · intro q hq
        simp only [dictKeys, List.map_append, List.mem_append, List.map_cons,
          List.map_nil, List.mem_singleton]
        push_neg
        constructor
        · exact fun hm => hfresh q (List.mem_cons_of_mem p hq)
            (by simpa [dictKeys] using hm)
        · exact fun he => hnd.1 (he ▸ hq)

/-- Structure of `grouped_form_schema` on well-formed input (every group
key a schema key; slugs pairwise distinct and not colliding with schema
keys; schema keys unique): the output's properties are the group
sub-objects, in group order, followed by the unclaimed keys, in sorted
key order, with their original descriptors; the output's `required` is
the original one with each grouped property erased once. -/
theorem grouped_form_schema_eq (S : FlatSchema) (groups : List GroupDef)
    (hkeys : ∀ g ∈ groups, ∀ p ∈ g.properties, p ∈ dictKeys S.properties)
    (hslugNodup : (groups.map (fun g => g.slug)).Nodup)
    (hslugFresh : ∀ g ∈ groups, ¬ g.slug ∈ dictKeys S.properties)
    (hkeysNodup : (dictKeys S.properties).Nodup) :
    grouped_form_schema S groups =
      some ⟨groups.map (fun g => (g.slug, GEntry.group (sub_schema_of S g))) ++
              ((crud_properties S).filter
                (fun p => ¬ p ∈ groups.flatMap (fun g => g.properties))).map
                (fun p => (p, GEntry.plain (desc_of S p))),
            (groups.flatMap (fun g => g.properties)).foldl
              (fun r p => r.erase p) S.required⟩ := by
  have hremK : ∀ p ∈ (crud_properties S).filter
      (fun p => ¬ p ∈ groups.flatMap (fun g => g.properties)),
      p ∈ dictKeys S.properties := by
    intro p hp
    exact (crud_properties_mem S p).mp (List.mem_filter.mp hp).1
  have hremF : ∀ p ∈ (crud_properties S).filter
      (fun p => ¬ p ∈ groups.flatMap (fun g => g.properties)),
      ¬ p ∈ dictKeys
        (groups.map (fun g => (g.slug, GEntry.group (sub_schema_of S g)))) := by
    intro p hp hm
    simp only [dictKeys, List.map_map] at hm
    rcases List.mem_map.mp hm with ⟨g, hg, he⟩
    have he₂ : g.slug = p := he
    refine hslugFresh g hg ?_
    rw [he₂]
    exact hremK p hp
  have hremN : ((crud_properties S).filter
      (fun p => ¬ p ∈ groups.flatMap (fun g => g.properties))).Nodup :=
    List.Nodup.filter _ (crud_properties_nodup S hkeysNodup)
  simp only [grouped_form_schema,
    grouped_groups_loop_eq S groups [] S.required [] hkeys
      (fun g _ => by simp [dictKeys]) hslugNodup,
    List.nil_append,
    add_remained_eq S _ _ hremK hremF hremN]

/-- Whether a grouped-schema entry is a group sub-object whose own
`required` list contains the key `k`. -/
def entry_requires (k : String) (e : String × GEntry) : Bool :=
  match e.2 with
  | GEntry.group sub => k ∈ sub.required
  | GEntry.plain _ => false

/-- Erasing a list of other keys does not change membership of `k`. -/
theorem foldl_erase_not_mem :
    ∀ (l r : List String) (k : String), ¬ k ∈ l →
      (k ∈ l.foldl (fun r p => r.erase p) r ↔ k ∈ r) := by
  intro l
  induction l with
  | nil => intro r k _; exact Iff.rfl
  | cons p l ih =>
      intro r k hk
      simp only [List.foldl_cons]
      have hne : k ≠ p := fun he => hk (he ▸ List.mem_cons_self p l)
      rw [ih _ k (fun hm => hk (List.mem_cons_of_mem p hm))]
      exact List.mem_erase_of_ne hne

/-- Erase folds only remove elements. -/
theorem foldl_erase_subset :
    ∀ (l r : List String) (k : String),
      k ∈ l.foldl (fun r p => r.erase p) r → k ∈ r := by
  intro l
  induction l with
  | nil => intro r k h; exact h
  | cons p l ih =>
      intro r k h
      simp only [List.foldl_cons] at h
      exact List.erase_subset _ _ (ih _ k h)

/-- With pairwise-disjoint groups, a claimed key is claimed by exactly
one group. -/
theorem countP_claiming_groups (k : String) :
    ∀ gs : List GroupDef,
      List.Pairwise (fun a b => ∀ p ∈ a.properties, ¬ p ∈ b.properties) gs →
      k ∈ gs.flatMap (fun g => g.properties) →
      gs.countP (fun g => k ∈ g.properties) = 1 := by
  intro gs
  induction gs with
  | nil => intro _ h; simp at h
  | cons g gs ih =>
      intro hpw hk
      rw [List.pairwise_cons] at hpw
      by_cases hkg : k ∈ g.properties
      · rw [List.countP_cons_of_pos _ _ (by simpa using hkg)]
        rw [show gs.countP (fun g => k ∈ g.properties) = 0 from
          List.countP_eq_zero.mpr
            (fun b hb => by simpa using hpw.1 b hb k hkg)]
      · rw [List.countP_cons_of_neg _ _ (by simpa using hkg)]
        refine ih hpw.2 ?_
        rcases List.mem_flatMap.mp hk with ⟨a, ha, hpa⟩
        rcases List.mem_cons.mp ha with ha | ha
        · exact absurd (ha ▸ hpa) hkg
        · exact List.mem_flatMap.mpr ⟨a, ha, hpa⟩

/-- The configuration of one `CrudView` read by the validator and the
serializer: the layer's flat schema, the view's flat `ui_schema`,
`default_list_properties`, and `feature_title_property` (`""` is
Django's blank default, i.e. unset). -/
structure CrudView where
  schema : FlatSchema
  ui_schema : UiSchemaIn
  default_list_properties : List String
  feature_title_property : String
deriving DecidableEq, Repr

/-- `CrudView.list_available_properties` (models.py:148-161): keep the
sorted keys whose descriptor is not `data-url`-formatted, is not an
array whose items are objects, and whose ui hint selects neither a
textarea widget nor an rte field.  The descriptor lookup cannot miss —
`crud_properties` enumerates exactly the schema's own keys — so the
`none` branch is unreachable. -/
def list_available_properties (v : CrudView) : List String :=
  (crud_properties v.schema).filter (fun p =>
    match dictLookup v.schema.properties p with
    | none => false
    | some d =>
        (d.format != some "data-url") &&
        (d.type != some "array" || d.itemsType != some "object") &&
        ((dictLookup ((dictLookup v.ui_schema.hints p).getD []) "ui:widget"
            != some "textarea") &&
         (dictLookup ((dictLookup v.ui_schema.hints p).getD []) "ui:field"
            != some "rte")))

/-- The two `ValidationError`s `CrudView.clean` can raise. -/
inductive CleanError where
  | unexpectedListProperties (props : List String)
  | unexpectedTitleProperty (p : String)
deriving DecidableEq, Repr

/-- `CrudView.clean` (models.py:66-73): first check
`default_list_properties` against `list_available_properties` (the
list-eligible keys, not the raw key set) and raise with all offending
keys; only when that passes, check `feature_title_property` (when set)
against `properties`.  `list(set(a) - set(b))` is determinized as an
order-preserving filter (only membership and emptiness matter here). -/
def crud_clean (v : CrudView) : Except CleanError Unit :=
  let unexpected := v.default_list_properties.filter
    (fun p => ¬ p ∈ list_available_properties v)
  if ¬ unexpected = [] then .error (.unexpectedListProperties unexpected)
  else if v.feature_title_property ≠ "" ∧
      ¬ v.feature_title_property ∈ crud_properties v.schema then
    .error (.unexpectedTitleProperty v.feature_title_property)
  else .ok ()

/-- `CrudViewSerializer.get_feature_list_default_properties`
(serializers.py:35-36): `obj.default_list_properties or
obj.properties[:8]` — an empty (falsy) stored list falls back to the
first 8 of all sorted property keys, with no eligibility filtering. -/
def get_feature_list_default_properties (v : CrudView) : List String :=
  if v.default_list_properties.isEmpty then (crud_properties v.schema).take 8
  else v.default_list_properties

/-- A `data-url`-formatted string descriptor (list-ineligible). -/
def descUrl : Desc := ⟨some "string", some "data-url", none⟩

/-- C6 counterexample view: schema keys `{a, b}` where `a` is
`data-url`-formatted, `default_list_properties = [a]`, title `zz`. -/
def v6 : CrudView := ⟨⟨[("a", descUrl), ("b", dStr)], []⟩, ⟨[], []⟩, ["a"], "zz"⟩

/-- C6 counterexample: `a` is a member of the available key set, yet
`clean` rejects it (the check runs against the list-eligible keys, not
the key set), and the genuine violation `zz` (the title, absent from the
key set) is not part of the single reported error — the title check
never ran. -/
theorem c6_validate_view_counterexample :
    crud_clean v6 = .error (CleanError.unexpectedListProperties ["a"]) ∧
    "a" ∈ crud_properties v6.schema ∧
    ¬ "zz" ∈ crud_properties v6.schema ∧
    ¬ "zz" ∈ (["a"] : List String) := by
  refine ⟨rfl, by decide, by decide, by decide⟩

/-- C6 (amended): `clean` succeeds iff every `default_list_properties`
key is list-eligible and the title (when set) is a schema key; when it
raises the list-properties error, that error collects exactly the
stored keys that are not list-eligible — but the title check is
sequential and is suppressed by a list-properties error. -/
theorem c6_validate_view_amended (v : CrudView) :
    (crud_clean v = .ok () ↔
      ((∀ p ∈ v.default_list_properties, p ∈ list_available_properties v) ∧
       (v.feature_title_property = "" ∨
        v.feature_title_property ∈ crud_properties v.schema))) ∧
    (∀ u, crud_clean v = .error (CleanError.unexpectedListProperties u) →
      ∀ p, p ∈ u ↔ (p ∈ v.default_list_properties ∧
        ¬ p ∈ list_available_properties v)) := by
  unfold crud_clean
  by_cases h : v.default_list_properties.filter
      (fun p => ¬ p ∈ list_available_properties v) = []
  · rw [if_neg (by simpa using h)]
    by_cases ht : v.feature_title_property ≠ "" ∧
        ¬ v.feature_title_property ∈ crud_properties v.schema
    · rw [if_pos ht]
      constructor
      · constructor
        · intro hc; cases hc
        · intro hc
          rcases hc.2 with hc₂ | hc₂
          · exact absurd hc₂ ht.1
          · exact absurd hc₂ ht.2
      · intro u hu
        cases hu
    · rw [if_neg ht]
      push_neg at ht
      constructor
      · constructor
        · intro _
          refine ⟨?_, ?_⟩
          · intro p hp
            by_contra hna
            have : p ∈ v.default_list_properties.filter
                (fun p => ¬ p ∈ list_available_properties v) := by
              simp [List.mem_filter, hp, hna]
            rw [h] at this
            exact absurd this (List.not_mem_nil p)
          · by_cases he : v.feature_title_property = ""
            · exact Or.inl he
            · exact Or.inr (ht he)
        · intro _
          rfl
      · intro u hu
        cases hu
  · rw [if_pos (by simpa using h)]
    constructor
    · constructor
      · intro hc; cases hc
      · intro hc
        obtain ⟨p, hp⟩ := List.exists_mem_of_ne_nil _ h
        rw [List.mem_filter] at hp
        exact absurd (hc.1 p hp.1) (by simpa using hp.2)
    · intro u hu p
      injection hu with hu
      injection hu with hu
      subst hu
      simp [List.mem_filter]

/-- Witness for the amended C6 theorem at the concrete view `v6`: the
key `a` is in the reported error exactly because it is stored but not
list-eligible. -/
theorem c6_validate_view_amended_witness :
    "a" ∈ (["a"] : List String) ↔
      ("a" ∈ v6.default_list_properties ∧
       ¬ "a" ∈ list_available_properties v6) :=
  (c6_validate_view_amended v6).2 ["a"] rfl "a"

/-- C7 counterexample view: one schema key `a`, `data-url`-formatted
(hence not list-eligible), with `default_list_properties` unset. -/
def v7 : CrudView := ⟨⟨[("a", descUrl)], []⟩, ⟨[], []⟩, [], ""⟩

/-- C7 counterexample: with `default_list_properties` unset the
serializer returns `[a]` — the first 8 of all keys — although `a` is not
list-eligible, so the first 8 eligible keys are `[]`. -/
theorem c7_default_list_counterexample :
    get_feature_list_default_properties v7 = ["a"] ∧
    (list_available_properties v7).take 8 = [] ∧
    ¬ (["a"] : List String) = [] := by
  refine ⟨rfl, rfl, by decide⟩

/-- C7 (amended): a set `default_list_properties` is returned as stored;
an unset one falls back to the first 8 of all sorted property keys —
without the list-eligibility filter. -/
theorem c7_default_list_fallback (v : CrudView) :
    (¬ v.default_list_properties = [] →
      get_feature_list_default_properties v = v.default_list_properties) ∧
    (v.default_list_properties = [] →
      get_feature_list_default_properties v =
        (crud_properties v.schema).take 8) := by
  constructor <;> intro h <;>
    simp [get_feature_list_default_properties, List.isEmpty_iff, h]

/-- Witness for the amended C7 theorem at the concrete view `v7`. -/
theorem c7_default_list_fallback_witness :
    get_feature_list_default_properties v7 =
      (crud_properties v7.schema).take 8 :=
  (c7_default_list_fallback v7).2 rfl

/-- A property step always pops the property from the top-level dict. -/
theorem ui_prop_step_fst (acc : List (String × Hint) × List String × UiGroupOut)
    (p : String) : (ui_prop_step acc p).1 = dictPop acc.1 p := by
  unfold ui_prop_step
  split <;> rfl

/-- The hint entries of the group sub-dict after one property step. -/
theorem ui_prop_step_hints
    (acc : List (String × Hint) × List String × UiGroupOut) (p : String) :
    (ui_prop_step acc p).2.2.hints = (ui_prop_sub acc.1 acc.2.2 p).hints := by
  unfold ui_prop_step
  split <;> rfl

/-- When the popped hint is absent, the group sub-dict is unchanged. -/
theorem ui_prop_sub_hints_none (top : List (String × Hint)) (sub : UiGroupOut)
    (p : String) (hl : dictLookup top p = none) :
    (ui_prop_sub top sub p).hints = sub.hints := by
  simp [ui_prop_sub, hl]

/-- When the popped hint is the (falsy) empty object, the group sub-dict
is unchanged. -/
theorem ui_prop_sub_hints_empty (top : List (String × Hint)) (sub : UiGroupOut)
    (p : String) (h : Hint) (hl : dictLookup top p = some h)
    (hemp : h.isEmpty = true) : (ui_prop_sub top sub p).hints = sub.hints := by
  simp [ui_prop_sub, hl, hemp]

/-- When the popped hint is a non-empty object, it is inserted in the
group sub-dict. -/
theorem ui_prop_sub_hints_nonempty (top : List (String × Hint))
    (sub : UiGroupOut) (p : String) (h : Hint)
    (hl : dictLookup top p = some h) (hemp : ¬ h.isEmpty = true) :
    (ui_prop_sub top sub p).hints = dictInsert sub.hints p h := by
  simp [ui_prop_sub, hl, hemp]

/-- Invariant of the per-property fold of one group, for a fixed key `p`
whose flat hint is empty (or already gone): the top-level dict keeps
unique keys, `p`'s top-level entry stays empty-or-absent (and becomes
absent as soon as the fold visits `p`), `p` is never inserted in the
group's sub-dict, and the sub-dict only ever receives non-empty hints. -/
theorem ui_prop_fold_c10 (p : String) :
    ∀ (l : List String) (top : List (String × Hint)) (ord : List String)
      (sub : UiGroupOut),
      (dictKeys top).Nodup →
      (dictLookup top p = none ∨ dictLookup top p = some ([] : Hint)) →
      dictLookup sub.hints p = none →
      (∀ kh ∈ sub.hints, kh.2 ≠ ([] : Hint)) →
      (dictKeys (l.foldl ui_prop_step (top, ord, sub)).1).Nodup ∧
      (dictLookup (l.foldl ui_prop_step (top, ord, sub)).1 p = none ∨
        dictLookup (l.foldl ui_prop_step (top, ord, sub)).1 p =
          some ([] : Hint)) ∧
      ((p ∈ l ∨ dictLookup top p = none) →
        dictLookup (l.foldl ui_prop_step (top, ord, sub)).1 p = none) ∧
      dictLookup (l.foldl ui_prop_step (top, ord, sub)).2.2.hints p = none ∧
      (∀ kh ∈ (l.foldl ui_prop_step (top, ord, sub)).2.2.hints,
        kh.2 ≠ ([] : Hint)) := by
  intro l
  induction l with
  | nil =>
      intro top ord sub h1 h2 h3 h4
      refine ⟨h1, h2, ?_, h3, h4⟩
      rintro (hm | hnone)
      · exact absurd hm (List.not_mem_nil p)
      · exact hnone
  | cons q l ih =>
      intro top ord sub h1 h2 h3 h4
      have hfst : (ui_prop_step (top, ord, sub) q).1 = dictPop top q :=
        ui_prop_step_fst _ _
      have hhints : (ui_prop_step (top, ord, sub) q).2.2.hints =
          (ui_prop_sub top sub q).hints := ui_prop_step_hints _ _
      have h1n : (dictKeys (ui_prop_step (top, ord, sub) q).1).Nodup := by
        rw [hfst]; exact dictKeys_pop_nodup top q h1
      have h2n : dictLookup (ui_prop_step (top, ord, sub) q).1 p = none ∨
          dictLookup (ui_prop_step (top, ord, sub) q).1 p = some ([] : Hint) := by
        rw [hfst]
        by_cases hqp : p = q
        · subst hqp
          exact Or.inl (dictLookup_pop_self top p h1)
        · rw [dictLookup_pop_ne top q p hqp]
          exact h2
      have h3n : dictLookup (ui_prop_step (top, ord, sub) q).2.2.hints p =
          none := by
        rw [hhints]
        cases hl : dictLookup top q with
        | none => rw [ui_prop_sub_hints_none top sub q hl]; exact h3
        | some h =>
            by_cases hqp : q = p
            · subst hqp
              rcases h2 with h2 | h2
              · rw [hl] at h2; cases h2
              · rw [hl] at h2
                injection h2 with he
                subst he
                rw [ui_prop_sub_hints_empty top sub q [] hl rfl]
                exact h3
            · by_cases hemp : h.isEmpty
              · rw [ui_prop_sub_hints_empty top sub q h hl hemp]
                exact h3
              · rw [ui_prop_sub_hints_nonempty top sub q h hl hemp]
                rw [dictLookup_insert_ne _ _ _ _ (fun he => hqp he.symm)]
                exact h3
      have h4n : ∀ kh ∈ (ui_prop_step (top, ord, sub) q).2.2.hints,
          kh.2 ≠ ([] : Hint) := by
        rw [hhints]
        cases hl : dictLookup top q with
        | none => rw [ui_prop_sub_hints_none top sub q hl]; exact h4
        | some h =>
            by_cases hemp : h.isEmpty
            · rw [ui_prop_sub_hints_empty top sub q h hl hemp]
              exact h4
            · rw [ui_prop_sub_hints_nonempty top sub q h hl hemp]
              intro kh hm
              rcases dictInsert_mem _ _ _ kh hm with hm | hm
              · exact h4 kh hm
              · rw [hm]
                simpa [List.isEmpty_iff] using hemp
      obtain ⟨g1, g2, g3, g4, g5⟩ :=
        ih (ui_prop_step (top, ord, sub) q).1
           (ui_prop_step (top, ord, sub) q).2.1
           (ui_prop_step (top, ord, sub) q).2.2 h1n h2n h3n h4n
      refine ⟨g1, g2, ?_, g4, g5⟩
      rintro (hm | hnone)
      · rcases List.mem_cons.mp hm with hm | hm
        · subst hm
          refine g3 (Or.inr ?_)
          rw [hfst]
          exact dictLookup_pop_self top p h1
        · exact g3 (Or.inl hm)
      · refine g3 (Or.inr ?_)
        rw [hfst]
        by_cases hqp : p = q
        · subst hqp
          exact dictLookup_pop_self top p h1
        · rw [dictLookup_pop_ne top q p hqp]
          exact hnone

/-- Invariant of the group loop for a fixed key `p` whose flat hint is
empty: once some processed group claims `p`, its hint is gone from the
top level, it is in no group sub-dict, and sub-dicts hold only
non-empty hints. -/
theorem ui_groups_loop_c10 (p : String) (gs : List GroupDef) :
    ∀ st : UiSchemaOut,
      (dictKeys st.hints).Nodup →
      (dictLookup st.hints p = none ∨
        dictLookup st.hints p = some ([] : Hint)) →
      (∀ kv ∈ st.groups, dictLookup kv.2.hints p = none) →
      (∀ kv ∈ st.groups, ∀ kh ∈ kv.2.hints, kh.2 ≠ ([] : Hint)) →
      ((∃ g ∈ gs, p ∈ g.properties) ∨ dictLookup st.hints p = none) →
      dictLookup (ui_groups_loop st gs).hints p = none ∧
      (∀ kv ∈ (ui_groups_loop st gs).groups,
        dictLookup kv.2.hints p = none) ∧
      (∀ kv ∈ (ui_groups_loop st gs).groups,
        ∀ kh ∈ kv.2.hints, kh.2 ≠ ([] : Hint)) := by
  induction gs with
  | nil =>
      intro st h1 h2 h3 h4 h5
      rcases h5 with h5 | h5
      · obtain ⟨g, hg, _⟩ := h5
        exact absurd hg (List.not_mem_nil g)
      · exact ⟨h5, h3, h4⟩
  | cons g gs ih =>
      intro st h1 h2 h3 h4 h5
      obtain ⟨f1, f2, f3, f4, f5⟩ :=
        ui_prop_fold_c10 p g.properties st.hints st.order ⟨[], []⟩ h1 h2 rfl
          (by intro kh hm; exact absurd hm (List.not_mem_nil kh))
      refine ih _ f1 f2 ?_ ?_ ?_
      · intro kv hm
        rcases dictInsert_mem _ _ _ kv hm with hm | hm
        · exact h3 kv hm
        · rw [hm]
          exact f4
      · intro kv hm
        rcases dictInsert_mem _ _ _ kv hm with hm | hm
        · exact h4 kv hm
        · rw [hm]
          exact f5
      · rcases h5 with ⟨g₂, hg₂, hpg₂⟩ | h5
        · rcases List.mem_cons.mp hg₂ with hg₂ | hg₂
          · subst hg₂
            exact Or.inr (f3 (Or.inl hpg₂))
          · exact Or.inl ⟨g₂, hg₂, hpg₂⟩
        · exact Or.inr (f3 (Or.inr h5))

/-- The final top-level `ui:order` overwrite does not touch the
top-level hint entries. -/
theorem grouped_ui_schema_hints (ui : UiSchemaIn) (groups : List GroupDef) :
    (grouped_ui_schema ui groups).hints =
      (ui_groups_loop ⟨ui.hints, ui.order, []⟩ groups).hints := by
  unfold grouped_ui_schema
  split <;> rfl

/-- C10: a key claimed by some group whose flat hint is the empty object
ends up with no hint anywhere: `grouped_ui_schema` pops it from the top
level but, the popped object being falsy, never places it in the group
sub-dict; and group sub-dicts only ever receive non-empty hint objects. -/
theorem c10_empty_hint_dropped (ui : UiSchemaIn) (groups : List GroupDef)
    (g : GroupDef) (p : String)
    (hnd : (dictKeys ui.hints).Nodup)
    (hg : g ∈ groups) (hp : p ∈ g.properties)
    (hhint : dictLookup ui.hints p = some ([] : Hint)) :
    dictLookup (grouped_ui_schema ui groups).hints p = none ∧
    (∀ kv ∈ (grouped_ui_schema ui groups).groups,
      dictLookup kv.2.hints p = none) ∧
    (∀ kv ∈ (grouped_ui_schema ui groups).groups,
      ∀ kh ∈ kv.2.hints, kh.2 ≠ ([] : Hint)) := by
  rw [grouped_ui_schema_hints, grouped_ui_schema_groups]
  exact ui_groups_loop_c10 p groups ⟨ui.hints, ui.order, []⟩ hnd
    (Or.inr hhint) (by intro kv hm; exact absurd hm (List.not_mem_nil kv))
    (by intro kv hm; exact absurd hm (List.not_mem_nil kv))
    (Or.inl ⟨g, hg, hp⟩)

/-- Witness for C10 at the flat hints `{a: {}, b: {ui:widget: textarea}}`
and the group `g1` claiming `[a, b]`. -/
theorem c10_empty_hint_dropped_witness :
    dictLookup (grouped_ui_schema
      ⟨[("a", ([] : Hint)), ("b", [("ui:widget", "textarea")])], []⟩
      [g1]).hints "a" = none ∧
    (∀ kv ∈ (grouped_ui_schema
      ⟨[("a", ([] : Hint)), ("b", [("ui:widget", "textarea")])], []⟩
      [g1]).groups, dictLookup kv.2.hints "a" = none) ∧
    (∀ kv ∈ (grouped_ui_schema
      ⟨[("a", ([] : Hint)), ("b", [("ui:widget", "textarea")])], []⟩
      [g1]).groups, ∀ kh ∈ kv.2.hints, kh.2 ≠ ([] : Hint)) :=
  c10_empty_hint_dropped
    ⟨[("a", ([] : Hint)), ("b", [("ui:widget", "textarea")])], []⟩
    [g1] g1 "a" (by decide) (by decide) (by decide) (by decide)

/-- C2 (amended): on well-formed input — pairwise-disjoint groups whose
keys all exist in the schema, pairwise distinct slugs that do not
collide with schema keys, and unique schema keys — every key removed
from the top-level `required` appears in the `required` list of exactly
one group sub-object, and the union of group-local and remaining
top-level `required` members is the original `required` set.  (The slug
conditions are forced by the counterexample: a slug equal to an
unclaimed property key makes the ungrouped copy overwrite the group
sub-object.) -/
theorem c2_required_redistribution (S : FlatSchema) (groups : List GroupDef)
    (hkeys : ∀ g ∈ groups, ∀ p ∈ g.properties, p ∈ dictKeys S.properties)
    (hdisj : List.Pairwise
      (fun a b => ∀ p ∈ a.properties, ¬ p ∈ b.properties) groups)
    (hslugNodup : (groups.map (fun g => g.slug)).Nodup)
    (hslugFresh : ∀ g ∈ groups, ¬ g.slug ∈ dictKeys S.properties)
    (hkeysNodup : (dictKeys S.properties).Nodup) :
    ∃ out, grouped_form_schema S groups = some out ∧
      (∀ k, k ∈ S.required → ¬ k ∈ out.required →
        out.properties.countP (entry_requires k) = 1) ∧
      (∀ k, (k ∈ out.required ∨
          ∃ e ∈ out.properties, entry_requires k e = true) ↔
        k ∈ S.required) := by
  refine ⟨_, grouped_form_schema_eq S groups hkeys hslugNodup hslugFresh
    hkeysNodup, ?_, ?_⟩
  · intro k hkS hknot
    dsimp only at hknot ⊢
    have hkfm : k ∈ groups.flatMap (fun g => g.properties) := by
      by_contra hno
      exact hknot ((foldl_erase_not_mem _ _ _ hno).mpr hkS)
    rw [List.countP_append]
    have hB : (((crud_properties S).filter
        (fun p => ¬ p ∈ groups.flatMap (fun g => g.properties))).map
        (fun p => (p, GEntry.plain (desc_of S p)))).countP
        (entry_requires k) = 0 := by
      rw [List.countP_eq_zero]
      intro e he
      rcases List.mem_map.mp he with ⟨p, _, hpe⟩
      rw [← hpe]
      simp [entry_requires]
    have hA : (groups.map
        (fun g => (g.slug, GEntry.group (sub_schema_of S g)))).countP
        (entry_requires k) = 1 := by
      rw [List.countP_map]
      rw [List.countP_congr (q := fun g => decide (k ∈ g.properties)) ?_]
      · exact countP_claiming_groups k groups hdisj hkfm
      · intro g _
        simp [entry_requires, sub_schema_of, List.mem_filter, hkS,
          Function.comp]
    rw [hA, hB]
  · intro k
    dsimp only
    constructor
    · rintro (hk | ⟨e, he, hreq⟩)
      · exact foldl_erase_subset _ _ _ hk
      · rcases List.mem_append.mp he with he | he
        · rcases List.mem_map.mp he with ⟨g, _, hge⟩
          rw [← hge] at hreq
          simp [entry_requires, sub_schema_of, List.mem_filter] at hreq
          exact hreq.2
        · rcases List.mem_map.mp he with ⟨p, _, hpe⟩
          rw [← hpe] at hreq
          simp [entry_requires] at hreq
    · intro hkS
      by_cases hkfm : k ∈ groups.flatMap (fun g => g.properties)
      · rcases List.mem_flatMap.mp hkfm with ⟨g, hg, hkg⟩
        refine Or.inr ⟨(g.slug, GEntry.group (sub_schema_of S g)),
          List.mem_append_left _
            (List.mem_map_of_mem (fun g =>
              (g.slug, GEntry.group (sub_schema_of S g))) hg), ?_⟩
        simp [entry_requires, sub_schema_of, List.mem_filter, hkg, hkS]
      · exact Or.inl ((foldl_erase_not_mem _ _ _ hkfm).mpr hkS)

/-- Witness for the amended C2 theorem at the C1 scenario inputs. -/
theorem c2_required_redistribution_witness :
    ∃ out, grouped_form_schema S1 [g1] = some out ∧
      (∀ k, k ∈ S1.required → ¬ k ∈ out.required →
        out.properties.countP (entry_requires k) = 1) ∧
      (∀ k, (k ∈ out.required ∨
          ∃ e ∈ out.properties, entry_requires k e = true) ↔
        k ∈ S1.required) :=
  c2_required_redistribution S1 [g1] (by decide)
    (List.pairwise_singleton _ _) (by decide) (by decide) (by decide)

/-- C2 counterexample schema: keys `{a, b, c}`, required `[a]`. -/
def S2 : FlatSchema := ⟨[("a", dStr), ("b", dStr), ("c", dStr)], ["a"]⟩

/-- C2 counterexample group: label `C` slugifies to `c`, which is also an
unclaimed schema key; it claims `[a]`, which exists in the schema, and
the single group is trivially pairwise disjoint. -/
def g2c : GroupDef := ⟨"c", "C", ["a"]⟩

/-- C2 counterexample: with the group `{slug c, properties [a]}` over
schema keys `{a, b, c}` (required `[a]`), the ungrouped property `c`
overwrites the group's sub-object in the output dict, so the key `a` —
removed from the top-level `required` — appears in the `required` list
of zero group sub-objects, not exactly one. -/
theorem c2_required_redistribution_counterexample :
    grouped_form_schema S2 [g2c] =
      some ⟨[("c", GEntry.plain dStr), ("b", GEntry.plain dStr)], []⟩ ∧
    "a" ∈ S2.required ∧
    ¬ "a" ∈ ([] : List String) ∧
    ([("c", GEntry.plain dStr), ("b", GEntry.plain dStr)]).countP
      (entry_requires "a") = 0 := by
  refine ⟨rfl, by decide, by decide, by decide⟩

/-- C3 counterexample schema: properties in original order `[b, a]`. -/
def S3 : FlatSchema := ⟨[("b", dStr), ("a", dStr)], []⟩

/-- C3 counterexample: with no groups, the output's top-level key order
is the sorted `[a, b]` — `CrudView.properties` sorts the keys — and not
the original schema order `[b, a]` the claim requires.  (The embedding
determinizes the source's `list(set(..) - set(..))` as an
order-preserving filter of the sorted key list; CPython's actual set
iteration order is unspecified, so the source cannot guarantee the
claimed order either way.) -/
theorem c3_ungrouped_order_counterexample :
    grouped_form_schema S3 [] =
      some ⟨[("a", GEntry.plain dStr), ("b", GEntry.plain dStr)], []⟩ ∧
    dictKeys S3.properties = ["b", "a"] ∧
    ¬ dictKeys [("a", GEntry.plain dStr), ("b", GEntry.plain dStr)] =
      ["b", "a"] := by
  refine ⟨rfl, rfl, by decide⟩

/-- C3 (amended): on well-formed input the keys unclaimed by any group
appear in the output's properties dict unchanged (their lookup in the
schema is exactly the descriptor copied), after all group entries
(groups in list order, i.e. ascending `(order, label)`), but in
ascending sorted key order rather than original schema order. -/
theorem c3_ungrouped_after_groups (S : FlatSchema) (groups : List GroupDef)
    (hkeys : ∀ g ∈ groups, ∀ p ∈ g.properties, p ∈ dictKeys S.properties)
    (hslugNodup : (groups.map (fun g => g.slug)).Nodup)
    (hslugFresh : ∀ g ∈ groups, ¬ g.slug ∈ dictKeys S.properties)
    (hkeysNodup : (dictKeys S.properties).Nodup) :
    ∃ out, grouped_form_schema S groups = some out ∧
      out.properties =
        groups.map (fun g => (g.slug, GEntry.group (sub_schema_of S g))) ++
        ((crud_properties S).filter
          (fun p => ¬ p ∈ groups.flatMap (fun g => g.properties))).map
          (fun p => (p, GEntry.plain (desc_of S p))) ∧
      (∀ p ∈ (crud_properties S).filter
          (fun p => ¬ p ∈ groups.flatMap (fun g => g.properties)),
        dictLookup S.properties p = some (desc_of S p)) := by
  refine ⟨_, grouped_form_schema_eq S groups hkeys hslugNodup hslugFresh
    hkeysNodup, rfl, ?_⟩
  intro p hp
  exact dictLookup_desc_of S p
    ((crud_properties_mem S p).mp (List.mem_filter.mp hp).1)

/-- Witness for the amended C3 theorem at the C1 scenario inputs. -/
theorem c3_ungrouped_after_groups_witness :
    ∃ out, grouped_form_schema S1 [g1] = some out ∧
      out.properties =
        [g1].map (fun g => (g.slug, GEntry.group (sub_schema_of S1 g))) ++
        ((crud_properties S1).filter
          (fun p => ¬ p ∈ [g1].flatMap (fun g => g.properties))).map
          (fun p => (p, GEntry.plain (desc_of S1 p))) ∧
      (∀ p ∈ (crud_properties S1).filter
          (fun p => ¬ p ∈ [g1].flatMap (fun g => g.properties)),
        dictLookup S1.properties p = some (desc_of S1 p)) :=
  c3_ungrouped_after_groups S1 [g1] (by decide) (by decide) (by decide)
    (by decide)

/-- C4 counterexample schema: the single key `a`. -/
def S4 : FlatSchema := ⟨[("a", dStr)], []⟩

/-- C4 counterexample first group, claiming `a`. -/
def g41 : GroupDef := ⟨"g1", "G1", ["a"]⟩

/-- C4 counterexample second group, also claiming `a`. -/
def g42 : GroupDef := ⟨"g2", "G2", ["a"]⟩

/-- C4 counterexample: the key `a` claimed by both groups appears in the
sub-objects of BOTH `g1` and `g2` — the later group's claim is not
ignored, contradicting the claimed first-wins placement. -/
theorem c4_duplicate_claim_counterexample :
    grouped_form_schema S4 [g41, g42] =
      some ⟨[("g1", GEntry.group ⟨"object", "G1", [], [("a", dStr)]⟩),
             ("g2", GEntry.group ⟨"object", "G2", [], [("a", dStr)]⟩)], []⟩ ∧
    "a" ∈ dictKeys [("a", dStr)] := by
  refine ⟨rfl, by decide⟩

/-- C4 (amended): each group's sub-object is built independently from
the flat schema, so a key claimed by several groups is placed in the
sub-object of EVERY claiming group — no first-wins filtering occurs. -/
theorem c4_key_in_every_claiming_group (S : FlatSchema)
    (groups : List GroupDef)
    (hkeys : ∀ g ∈ groups, ∀ p ∈ g.properties, p ∈ dictKeys S.properties)
    (hslugNodup : (groups.map (fun g => g.slug)).Nodup)
    (hslugFresh : ∀ g ∈ groups, ¬ g.slug ∈ dictKeys S.properties)
    (hkeysNodup : (dictKeys S.properties).Nodup)
    (g : GroupDef) (hg : g ∈ groups) (p : String) (hp : p ∈ g.properties) :
    ∃ out, grouped_form_schema S groups = some out ∧
      dictLookup out.properties g.slug =
        some (GEntry.group (sub_schema_of S g)) ∧
      p ∈ dictKeys (sub_schema_of S g).properties := by
  refine ⟨_, grouped_form_schema_eq S groups hkeys hslugNodup hslugFresh
    hkeysNodup, ?_, sub_props_of_mem S g.properties p hp⟩
  exact dictLookup_append_left _ _ _ _
    (dictLookup_map_slug (fun g => GEntry.group (sub_schema_of S g)) groups
      hslugNodup g hg)

/-- Witness for the amended C4 theorem: in the two-group overlap
scenario, the second group `g2` also carries the shared key `a`. -/
theorem c4_key_in_every_claiming_group_witness :
    ∃ out, grouped_form_schema S4 [g41, g42] = some out ∧
      dictLookup out.properties g42.slug =
        some (GEntry.group (sub_schema_of S4 g42)) ∧
      "a" ∈ dictKeys (sub_schema_of S4 g42).properties :=
  c4_key_in_every_claiming_group S4 [g41, g42] (by decide) (by decide)
    (by decide) (by decide) g42 (by decide) "a" (by decide)
